import Mathlib

/-!
Verification of the egui-resources image pipeline (src/lib.rs).

The development shallowly embeds the library's pixel-buffer bridge
(`dynamic_image_from`, `color_image_from_dynamic_image`), the fill-resize
pipeline (`resized_copy_from`, delegating to the image crate's
`resize_to_fill`), and the resource facade (`resource_img`, `resource_icon`,
`resource_font`, `reg_fonts`, `read_bytes`).

Modelling conventions:
- Machine integers are `Nat`; the `usize -> u32` casts (`as u32`) are modelled
  as `% 2^32`, written with the constant `U32MOD`.
- Rust byte buffers (`Vec<u8>`, `&[u8]`) are `List Nat`, Rust strings are
  `List Char`.
- A Rust panic (out-of-bounds index, failed assertion) is modelled by an
  `Option` result being `none`; fallible operations likewise return `Option`.
- The image crate's `resize_dimensions` works in `f64`; its inputs here are
  non-negative rationals with small numerators and denominators, on which the
  `f64` computation is exact, so it is modelled by exact fraction arithmetic
  over `Nat` (the `Frac` type below).
- Sampling kernels other than `NearestNeighbor` perform `f32` convolutions;
  they are treated as an explicit parameter (`BlurFn`) of the resize pipeline,
  matching the specification's decision to treat filter kernels as black-box
  library capabilities.  The `Nearest` kernel (a box kernel of support `0`)
  always selects a single source sample per destination pixel and is modelled
  exactly.
-/

namespace EguiResources

/-- Model of egui's `Color32`: four 8-bit channels stored in R,G,B,A byte
order.  egui stores colors in premultiplied-alpha form, but the stored value
is just the four bytes, which is what this structure captures. -/
structure Color32 where
  r : Nat
  g : Nat
  b : Nat
  a : Nat
deriving DecidableEq, Repr

/-- Model of egui's `Color32::from_rgba_premultiplied`: stores the four bytes
unchanged. -/
def Color32.from_rgba_premultiplied (r g b a : Nat) : Color32 :=
  ⟨r, g, b, a⟩

/-- Channel premultiplication used by egui's `Color32::from_rgba_unmultiplied`
for `0 < a < 255`.  egui performs this scaling with `f32` arithmetic (in
linear color space in the egui version this crate builds against); the exact
byte values it produces are modelled here representatively by gamma-space
rounding scaling.  No theorem in this file depends on the values this
function produces: every proved statement exercises only the `a = 255` and
`a = 0` branches of `from_rgba_unmultiplied`, which egui implements exactly
as modelled below. -/
def premul_channel (c a : Nat) : Nat :=
  (c * a + 127) / 255

/-- Model of egui's `Color32::from_rgba_unmultiplied`: `a = 255` stores the
bytes unchanged, `a = 0` yields `Color32::TRANSPARENT` (all four bytes `0`),
and `0 < a < 255` premultiplies the color channels by the alpha. -/
def Color32.from_rgba_unmultiplied (r g b a : Nat) : Color32 :=
  if a = 255 then ⟨r, g, b, 255⟩
  else if a = 0 then ⟨0, 0, 0, 0⟩
  else ⟨premul_channel r a, premul_channel g a, premul_channel b a, a⟩

/-- The four bytes of a `Color32` in memory order (R,G,B,A); this is the
byte sequence the `unsafe` pointer reinterpretation in `dynamic_image_from`
reads for each pixel. -/
def c32_bytes (c : Color32) : List Nat :=
  [c.r, c.g, c.b, c.a]

/-- Model of egui's `ColorImage`: a size and a row-major pixel sequence. -/
structure ColorImage where
  width : Nat
  height : Nat
  pixels : List Color32
deriving DecidableEq, Repr

/-- The `size` field of an egui `ColorImage`, a `[usize; 2]` array. -/
def ColorImage.size (img : ColorImage) : List Nat :=
  [img.width, img.height]

/-- A `ColorImage` is valid when its pixel count matches its dimensions. -/
def ColorImage.Valid (img : ColorImage) : Prop :=
  img.pixels.length = img.width * img.height

instance (img : ColorImage) : Decidable img.Valid :=
  inferInstanceAs (Decidable (img.pixels.length = img.width * img.height))

/-- Model of egui's `ColorImage::example()`: a fixed, deterministic
placeholder image.  Its concrete pixel content is irrelevant to every claim
(only its identity as one fixed value matters), so it is modelled as a fixed
constant. -/
def ColorImage.example : ColorImage :=
  ⟨2, 2, [⟨0, 0, 0, 255⟩, ⟨255, 255, 255, 255⟩, ⟨255, 255, 255, 255⟩, ⟨0, 0, 0, 255⟩]⟩

/-- Model of the image crate's `DynamicImage` in the only variant this crate
produces (`ImageRgba8`): dimensions plus the backing byte container.  The
container may be longer than `width*height*4` (`ImageBuffer::from_raw`
accepts oversized containers and keeps the extra bytes). -/
structure DynamicImage where
  width : Nat
  height : Nat
  bytes : List Nat
deriving DecidableEq, Repr

/-- Raw RGBA8 buffer representation: `u32` dimensions plus a flat byte
sequence, the decoder-output shape described by the specification. -/
structure RawImageBuffer where
  width : Nat
  height : Nat
  bytes : List Nat
deriving DecidableEq, Repr

/-- Modulus of the `usize -> u32` truncating casts (`as u32`). -/
def U32MOD : Nat := 4294967296

/-- Largest `u32` value, used by the image crate's dimension clamping. -/
def U32MAX : Nat := 4294967295

/-- Largest `usize` value on the 64-bit targets this crate builds for. -/
def USIZEMAX : Nat := 18446744073709551615

/-- The image crate's `image_buffer_len(w, h)` overflow check: every
`ImageBuffer` allocation (`ImageBuffer::new`, used by `RgbaImage::new`, the
two resampling passes of `imageops::resize`, and its copy fast path)
computes the subpixel count `4*w*h` with checked multiplication and panics
(`expect`) when it overflows `usize`. -/
def image_buffer_fits (w h : Nat) : Prop :=
  w * h * 4 ≤ USIZEMAX

instance (w h : Nat) : Decidable (image_buffer_fits w h) :=
  inferInstanceAs (Decidable (w * h * 4 ≤ USIZEMAX))

/-- Model of `RgbaImage::from_raw(w, h, buf)` (and of the `DynamicImage::from`
wrapping applied to its result): succeeds exactly when the container holds at
least `w*h*4` bytes, keeping the whole container.  (`check_image_fits`
computes `w*h*4` with overflow checking; over `Nat` the product is exact, and
an overflowing product exceeds every concrete buffer length, so the `None`
outcome coincides.) -/
def RgbaImage.from_raw (w h : Nat) (buf : List Nat) : Option DynamicImage :=
  if w * h * 4 ≤ buf.length then some ⟨w, h, buf⟩ else none

/-- Model of `RgbaImage::new(w, h)`: a blank image, all bytes zero.
`ImageBuffer::new` allocates through `image_buffer_len(w, h).expect(..)`,
which panics — modelled as `none` — when the buffer length `4*w*h`
overflows `usize`. -/
def RgbaImage.new (w h : Nat) : Option DynamicImage :=
  if image_buffer_fits w h then some ⟨w, h, List.replicate (w * h * 4) 0⟩ else none

/-- The `match` in `dynamic_image_from` (src/lib.rs lines 24-27): build an
`RgbaImage` from a raw buffer, substituting a blank image of the requested
size when `from_raw` fails. -/
def rgba_or_blank (w h : Nat) (buf : List Nat) : Option DynamicImage :=
  match RgbaImage.from_raw w h buf with
  | none => RgbaImage.new w h
  | some b => some b

/-- Model of `dynamic_image_from` (src/lib.rs lines 17-30).  The `unsafe`
block takes a pointer to `src.pixels[0]` — which panics (index out of
bounds, modelled as `none`) when the pixel vector is empty — and
reinterprets the pixel array as `width*height*4` bytes.  For a valid image
the byte slice is exactly the concatenation of the pixels' channel bytes;
for an invalid image the real code reads out of bounds (undefined
behavior), which the model truncates instead — no theorem below exercises
that case.  The `as u32` casts on the dimensions truncate. -/
def dynamic_image_from (src : ColorImage) : Option DynamicImage :=
  if src.pixels = [] then none
  else rgba_or_blank (src.width % U32MOD) (src.height % U32MOD)
    ((src.pixels.flatMap c32_bytes).take (src.width * src.height * 4))

/-- Fixed-size grouping of a byte sequence into 4-byte chunks, the
`chunks_exact(4)` iteration of egui's `ColorImage::from_rgba_unmultiplied`
(any trailing remainder shorter than 4 is dropped). -/
def chunks4 : List Nat → List (List Nat)
  | a :: b :: c :: d :: t => [a, b, c, d] :: chunks4 t
  | _ => []

/-- One pixel of egui's `ColorImage::from_rgba_unmultiplied`: a 4-byte chunk
interpreted as unmultiplied R,G,B,A. -/
def pix_of (p : List Nat) : Color32 :=
  Color32.from_rgba_unmultiplied (p.getD 0 0) (p.getD 1 0) (p.getD 2 0) (p.getD 3 0)

/-- Model of egui's `ColorImage::from_rgba_unmultiplied(size, rgba)`: asserts
`size[0]*size[1]*4 == rgba.len()` (assertion failure modelled as `none`),
then converts each 4-byte chunk with `Color32::from_rgba_unmultiplied`. -/
def ColorImage.from_rgba_unmultiplied (w h : Nat) (rgba : List Nat) : Option ColorImage :=
  if w * h * 4 = rgba.length then some ⟨w, h, (chunks4 rgba).map pix_of⟩ else none

/-- Model of `color_image_from_dynamic_image` (src/lib.rs lines 63-67): the
`im_flat!` macro turns the image into its RGBA8 bytes and dimensions
(`into_rgba8` on an `ImageRgba8` image returns the backing container as is),
then delegates to `ColorImage::from_rgba_unmultiplied`. -/
def color_image_from_dynamic_image (src : DynamicImage) : Option ColorImage :=
  ColorImage.from_rgba_unmultiplied src.width src.height src.bytes

/-- Raw-buffer to `ColorImage` conversion as realized in the code: the
`RgbaImage::from_raw` ingestion with blank-image fallback exactly as in
`dynamic_image_from` (src/lib.rs lines 22-28), composed with
`color_image_from_dynamic_image`. -/
def raw_to_color_image (raw : RawImageBuffer) : Option ColorImage :=
  (rgba_or_blank raw.width raw.height raw.bytes).bind color_image_from_dynamic_image

/-- Round trip of the specification: `to_raw_buffer` realized by
`dynamic_image_from` followed by `to_color_image` realized by
`color_image_from_dynamic_image`. -/
def round_trip (img : ColorImage) : Option ColorImage :=
  (dynamic_image_from img).bind color_image_from_dynamic_image

/-- Exact non-negative fraction, the model of the `f64` ratio values inside
the image crate's `resize_dimensions`.  On the ratios arising there the
claims exercise, the `f64` computation is exact, so fraction arithmetic
reproduces it.  A zero denominator corresponds to an `f64` division by zero;
no theorem below exercises that case. -/
structure Frac where
  num : Nat
  den : Nat
deriving DecidableEq, Repr

/-- Comparison of two fractions (valid for positive denominators). -/
def Frac.le (a b : Frac) : Bool :=
  a.num * b.den ≤ b.num * a.den

/-- Model of `f64::max` on the ratio fractions. -/
def Frac.max (a b : Frac) : Frac :=
  if Frac.le a b then b else a

/-- Model of `f64::min` on the ratio fractions. -/
def Frac.min (a b : Frac) : Frac :=
  if Frac.le a b then a else b

/-- Multiplication of a fraction by a natural number (`width as f64 * r`). -/
def Frac.scale (k : Nat) (q : Frac) : Frac :=
  ⟨k * q.num, q.den⟩

/-- Model of `f64::round` (half away from zero) on a non-negative fraction:
`(2*num + den) / (2*den)` computes `floor(q + 1/2)`. -/
def frnd (q : Frac) : Nat :=
  (2 * q.num + q.den) / (2 * q.den)

/-- Model of the image crate's `resize_dimensions(width, height, nwidth,
nheight, fill)`: computes the two aspect ratios, keeps the larger (for fill)
or smaller one, scales the source dimensions by it with rounding (at least
`1`), and clamps to `u32::MAX` (the saturating `as u32` casts) when a scaled
dimension overflows `u32`. -/
def resize_dimensions (width height nwidth nheight : Nat) (fill : Bool) : Nat × Nat :=
  let wr : Frac := ⟨nwidth, width⟩
  let hr : Frac := ⟨nheight, height⟩
  let r : Frac := if fill then Frac.max wr hr else Frac.min wr hr
  let nw : Nat := max (frnd (Frac.scale width r)) 1
  let nh : Nat := max (frnd (Frac.scale height r)) 1
  if U32MAX < nw then
    (U32MAX, max (min (frnd (Frac.scale height ⟨U32MAX, width⟩)) U32MAX) 1)
  else if U32MAX < nh then
    (max (min (frnd (Frac.scale width ⟨U32MAX, height⟩)) U32MAX) 1, U32MAX)
  else (nw, nh)

/-- The intermediate width `resize_dimensions` computes for the fill
strategy before its `u32::MAX` clamp check — the source width scaled by the
larger of the two aspect ratios, rounded, and at least `1`.  Named so that
claims can state the no-clamp side condition. -/
def fill_scaled_w (sw sh w h : Nat) : Nat :=
  max (frnd (Frac.scale sw (Frac.max ⟨w, sw⟩ ⟨h, sh⟩))) 1

/-- The intermediate height `resize_dimensions` computes for the fill
strategy before its `u32::MAX` clamp check. -/
def fill_scaled_h (sw sh w h : Nat) : Nat :=
  max (frnd (Frac.scale sh (Frac.max ⟨w, sw⟩ ⟨h, sh⟩))) 1

/-- Pixel access into the model `DynamicImage`: the four bytes at offset
`(y*width + x) * 4` of the backing container. -/
def get_pixel (img : DynamicImage) (x y : Nat) : Color32 :=
  ⟨img.bytes.getD (4 * (y * img.width + x)) 0,
   img.bytes.getD (4 * (y * img.width + x) + 1) 0,
   img.bytes.getD (4 * (y * img.width + x) + 2) 0,
   img.bytes.getD (4 * (y * img.width + x) + 3) 0⟩

/-- Row-major byte buffer of a `w × h` image whose pixel at `(x, y)` is
`f x y`; the shape of every buffer the image crate's sampling and cropping
operations construct. -/
def build_bytes (w h : Nat) (f : Nat → Nat → Color32) : List Nat :=
  (List.range h).flatMap (fun y => (List.range w).flatMap (fun x => c32_bytes (f x y)))

/-- Source index selected by the image crate's sampling passes for the
`Nearest` filter (box kernel, support `0`): destination coordinate `o` of
`n` samples from a source extent `m` reads source index
`clamp(floor((o + 0.5) * m / n), 0, m-1)`, and the single-tap box kernel
passes the sample through unchanged.  `floor((o + 0.5) * m / n)` equals the
natural division `(2*o+1)*m / (2*n)`. -/
def nearest_index (m n o : Nat) : Nat :=
  min ((2 * o + 1) * m / (2 * n)) (m - 1)

/-- The sampling filters of `image::imageops::FilterType`. -/
inductive FilterType where
  | Nearest
  | Triangle
  | CatmullRom
  | Gaussian
  | Lanczos3
deriving DecidableEq, Repr

/-- Parameter type abstracting the `f32` convolution kernels of the
non-`Nearest` filters: given the filter, the source image and the target
dimensions, produce the sampled pixel for a destination coordinate. -/
def BlurFn : Type :=
  FilterType → DynamicImage → Nat → Nat → Nat → Nat → Color32

/-- Model of `image::imageops::resize` (also `DynamicImage::resize_exact`):
an empty source returns a blank target-size image (the `is_empty` early
return, an `ImageBuffer::new` allocation); if the target dimensions equal
the source dimensions the image is copied into a freshly allocated
exact-size buffer; otherwise the image is resampled by a vertical pass
allocating a `width × nh` buffer and a horizontal pass allocating an
`nw × nh` buffer.  Each `ImageBuffer::new` allocation panics — modelled as
`none` — when its subpixel count `4*w*h` overflows `usize`
(`image_buffer_fits`).  The `Nearest` filter selects single source samples
(see `nearest_index`; the two passes compose to one lookup per destination
pixel); every other filter's convolution is supplied by the `blur`
parameter. -/
def resize (blur : BlurFn) (img : DynamicImage) (nw nh : Nat) (f : FilterType) :
    Option DynamicImage :=
  if img.width = 0 ∨ img.height = 0 then
    RgbaImage.new nw nh
  else if nw = img.width ∧ nh = img.height then
    if image_buffer_fits img.width img.height then
      some ⟨img.width, img.height, build_bytes img.width img.height (fun x y => get_pixel img x y)⟩
    else none
  else if image_buffer_fits img.width nh ∧ image_buffer_fits nw nh then
    some (match f with
      | FilterType.Nearest =>
          ⟨nw, nh, build_bytes nw nh (fun x y =>
            get_pixel img (nearest_index img.width nw x) (nearest_index img.height nh y))⟩
      | _ => ⟨nw, nh, build_bytes nw nh (blur f img nw nh)⟩)
  else none

/-- Model of `DynamicImage::crop(x, y, cw, ch)` (`crop_dimms` clamping): the
offsets are clamped to the image, the extents to what remains, and the
cropped pixels are copied into a fresh buffer.  The `to_image` allocation
here cannot hit the `image_buffer_fits` panic: the clamped extents are
bounded by the input image's dimensions, whose buffer was already
allocated, so `crop` stays total.  (When the requested rectangle lies
outside the image after the image crate's `u32` arithmetic underflows, the
real code path is build-dependent — the subtraction panics in debug
builds; the truncating `Nat` subtraction here is only exercised by
theorems on in-range rectangles.) -/
def crop (img : DynamicImage) (x y cw ch : Nat) : DynamicImage :=
  let x2 := min x img.width
  let y2 := min y img.height
  let ch2 := min ch (img.height - y2)
  let cw2 := min cw (img.width - x2)
  ⟨cw2, ch2, build_bytes cw2 ch2 (fun i j => get_pixel img (x2 + i) (y2 + j))⟩

/-- Model of `DynamicImage::resize_to_fill(nwidth, nheight, filter)`: scale
by the larger aspect ratio (`resize_dimensions` with `fill = true`), then
crop the centered excess in the dimension that overshoots.  The source's
`nratio > ratio` comparison is `nwidth * iheight > iwidth * nheight`. -/
def resize_to_fill (blur : BlurFn) (img : DynamicImage) (nwidth nheight : Nat)
    (f : FilterType) : Option DynamicImage :=
  let wh2 := resize_dimensions img.width img.height nwidth nheight true
  (resize blur img wh2.1 wh2.2 f).map fun i =>
    if i.width * nheight < nwidth * i.height then
      crop i 0 ((i.height - nheight) / 2) nwidth nheight
    else
      crop i ((i.width - nwidth) / 2) 0 nwidth nheight

/-- Model of `resized_copy_from` (src/lib.rs lines 37-44): convert the
source `ColorImage` to a `DynamicImage`, fill-resize it to `wh` (each
component cast `as u32`), and convert back. -/
def resized_copy_from (blur : BlurFn) (wh : Nat × Nat) (src : ColorImage)
    (filter : FilterType) : Option ColorImage :=
  (dynamic_image_from src).bind fun img =>
    (resize_to_fill blur img (wh.1 % U32MOD) (wh.2 % U32MOD) filter).bind
      color_image_from_dynamic_image

/-- The path separator character. -/
def slashChar : Char := '/'

/-- Rust strings (`&str`, `String`, path strings) are modelled as character
lists. -/
abbrev RStr : Type := List Char

/-- Model of `PathBuf::join` on Unix: an absolute right operand replaces the
base; otherwise the two are joined with a separator. -/
def path_join (base f : RStr) : RStr :=
  match f with
  | c :: _ => if c = slashChar then f else base ++ (slashChar :: f)
  | [] => base ++ [slashChar]

/-- Model of `ResourcesBase::read_bytes` (src/lib.rs lines 144-152): resolve
the path — the caller-supplied string as is when `p` is `false`, joined
under the base path when `p` is `true` — and read the file's bytes.  The
filesystem is an explicit parameter `fs` mapping a path to the file's
contents (or `none` for any I/O error, which `?` propagates).  The single
`read` call is modelled as reading the whole file. -/
def read_bytes (fs : RStr → Option (List Nat)) (basepath : RStr) (f : RStr)
    (p : Bool) : Option (List Nat) :=
  fs (if !p then f else path_join basepath f)

/-- Model of `eframe::IconData`. -/
structure IconData where
  rgba : List Nat
  width : Nat
  height : Nat
deriving DecidableEq, Repr

/-- Model of `ResourcesBase::resource_img` (src/lib.rs lines 87-94): on read
failure return the placeholder `ColorImage::example()`; on decode failure
likewise; on success bridge the decoded image.  The decoder
(`image::load_from_memory`) is an explicit parameter; a real decoder only
produces images with exact-size buffers, for which the bridge's `some` is
guaranteed. -/
def resource_img (decode : List Nat → Option DynamicImage)
    (fs : RStr → Option (List Nat)) (basepath : RStr) (f : RStr) (p : Bool) :
    Option ColorImage :=
  match read_bytes fs basepath f p with
  | none => some ColorImage.example
  | some bs =>
    match decode bs with
    | some img => color_image_from_dynamic_image img
    | none => some ColorImage.example

/-- Model of `ResourcesBase::resource_icon` (src/lib.rs lines 100-108): on
read failure or decode failure return `none`; on success return the flat
RGBA bytes with the dimensions. -/
def resource_icon (decode : List Nat → Option DynamicImage)
    (fs : RStr → Option (List Nat)) (basepath : RStr) (ico : RStr) (p : Bool) :
    Option IconData :=
  match read_bytes fs basepath ico p with
  | none => none
  | some bs =>
    match decode bs with
    | some img => some ⟨img.bytes, img.width, img.height⟩
    | none => none

/-- Model of egui's `FontData` (just the font file bytes here). -/
structure FontData where
  bytes : List Nat
deriving DecidableEq, Repr

/-- Model of `FontData::from_owned`. -/
def FontData.from_owned (b : List Nat) : FontData :=
  ⟨b⟩

/-- Model of egui's `FontFamily`. -/
inductive FontFamily where
  | Proportional
  | Monospace
  | Name (n : RStr)
deriving DecidableEq, Repr

/-- Model of egui's `FontDefinitions`: the two `BTreeMap`s as lookup
functions. -/
structure FontDefinitions where
  font_data : RStr → Option FontData
  families : FontFamily → Option (List RStr)

/-- Model of `FontDefinitions::default()`.  egui's default table contains
its built-in fonts; its concrete contents are irrelevant to every claim
(both sides of the claims start from the same table), so it is modelled as
a fixed constant. -/
def FontDefinitions.default : FontDefinitions :=
  ⟨fun _ => none, fun _ => none⟩

/-- Map insertions performed by `resource_font` on success: the named font
data entry, and the name pushed at position `0` of the family's list
(`entry(t).or_default().insert(0, m)`). -/
def font_insert (fonts : FontDefinitions) (n : RStr) (b : List Nat)
    (t : FontFamily) : FontDefinitions :=
  ⟨fun m => if m = n then some (FontData.from_owned b) else fonts.font_data m,
   fun s => if s = t then some (n :: (fonts.families t).getD []) else fonts.families s⟩

/-- Model of `ResourcesBase::resource_font` (src/lib.rs lines 117-126): on
read failure return leaving the table untouched; on success insert the font
data under `n` and push `n` at the front of family `t`'s list. -/
def resource_font (fs : RStr → Option (List Nat)) (basepath : RStr)
    (fonts : FontDefinitions) (n f : RStr) (t : FontFamily) (p : Bool) :
    FontDefinitions :=
  match read_bytes fs basepath f p with
  | none => fonts
  | some b => font_insert fonts n b t

/-- Model of `ResourcesBase::reg_fonts` (src/lib.rs lines 131-138): fold
`resource_font` over the registrations, passing `p = !f.contains("/")` for
each entry. -/
def reg_fonts (fs : RStr → Option (List Nat)) (basepath : RStr)
    (ffs : List (RStr × RStr × FontFamily)) : FontDefinitions :=
  ffs.foldl
    (fun fonts e =>
      resource_font fs basepath fonts e.1 e.2.1 e.2.2 (!(e.2.1.contains slashChar)))
    FontDefinitions.default

/-- Path-resolution policy as the claim states it: a filename containing
`'/'` is passed to the filesystem as the caller-supplied path, any other
filename is resolved under the configured base path. -/
def resolved_path_policy (basepath f : RStr) : RStr :=
  if f.contains slashChar then f else path_join basepath f

/-- Specification-side restatement of `reg_fonts` used for the refinement
claim C9: each registration reads its file at `resolved_path_policy` and on
success performs the same two insertions. -/
def reg_fonts_spec (fs : RStr → Option (List Nat)) (basepath : RStr)
    (ffs : List (RStr × RStr × FontFamily)) : FontDefinitions :=
  ffs.foldl
    (fun fonts e =>
      match fs (resolved_path_policy basepath e.2.1) with
      | none => fonts
      | some b => font_insert fonts e.1 b e.2.2)
    FontDefinitions.default

/-- Trivial kernel parameter used to instantiate `BlurFn` in closed
statements whose computation never reaches a non-`Nearest` filter. -/
def blur0 : BlurFn :=
  fun _ _ _ _ _ _ => ⟨0, 0, 0, 0⟩

/-- The 4×4 test image of `tests::test_resources` (src/lib.rs lines
164-171): four 2×2 solid quadrants — red, green / blue, yellow — with full
alpha, built with `Color32::from_rgba_premultiplied`. -/
def quad4 : ColorImage :=
  ⟨4, 4,
   [Color32.from_rgba_premultiplied 255 0 0 255, Color32.from_rgba_premultiplied 255 0 0 255,
    Color32.from_rgba_premultiplied 0 255 0 255, Color32.from_rgba_premultiplied 0 255 0 255,
    Color32.from_rgba_premultiplied 255 0 0 255, Color32.from_rgba_premultiplied 255 0 0 255,
    Color32.from_rgba_premultiplied 0 255 0 255, Color32.from_rgba_premultiplied 0 255 0 255,
    Color32.from_rgba_premultiplied 0 0 255 255, Color32.from_rgba_premultiplied 0 0 255 255,
    Color32.from_rgba_premultiplied 255 255 0 255, Color32.from_rgba_premultiplied 255 255 0 255,
    Color32.from_rgba_premultiplied 0 0 255 255, Color32.from_rgba_premultiplied 0 0 255 255,
    Color32.from_rgba_premultiplied 255 255 0 255, Color32.from_rgba_premultiplied 255 255 0 255]⟩

/-! Helper lemmas about the byte-level bridge. -/

theorem length_flatMap_c32 (l : List Color32) : (l.flatMap c32_bytes).length = 4 * l.length := by
  induction l with
  | nil => rfl
  | cons c t ih => simp only [List.flatMap_cons, List.length_append, ih, c32_bytes,
      List.length_cons, List.length_nil]; omega

theorem chunks4_map_pix_flatMap (l : List Color32) (h : ∀ c ∈ l, c.a = 255) :
    (chunks4 (l.flatMap c32_bytes)).map pix_of = l := by
  induction l with
  | nil => rfl
  | cons c t ih =>
    have hc : c.a = 255 := h c (List.mem_cons_self c t)
    have ht : ∀ x ∈ t, x.a = 255 := fun x hx => h x (List.mem_cons_of_mem _ hx)
    obtain ⟨r, g, b, a⟩ := c
    simp only at hc
    subst hc
    show (chunks4 (r :: g :: b :: 255 :: t.flatMap c32_bytes)).map pix_of =
      Color32.mk r g b 255 :: t
    rw [chunks4, List.map_cons, ih ht]
    simp [pix_of, Color32.from_rgba_unmultiplied]

theorem chunks4_length (k : Nat) : ∀ l : List Nat, l.length = 4 * k →
    (chunks4 l).length = k := by
  induction k with
  | zero =>
    intro l hl
    have : l = [] := List.eq_nil_of_length_eq_zero (by omega)
    subst this; rfl
  | succ n ih =>
    intro l hl
    match l with
    | [] => simp at hl
    | [a] => simp at hl; omega
    | [a, b] => simp at hl; omega
    | [a, b, c] => simp at hl; omega
    | a :: b :: c :: d :: t =>
      rw [chunks4, List.length_cons, ih t (by simp at hl; omega)]

theorem map_pix_flatMap_self (k : Nat) : ∀ l : List Nat, l.length = 4 * k →
    (∀ p ∈ chunks4 l, p.getD 3 0 = 255) →
    ((chunks4 l).map pix_of).flatMap c32_bytes = l := by
  induction k with
  | zero =>
    intro l hl _
    have : l = [] := List.eq_nil_of_length_eq_zero (by omega)
    subst this; rfl
  | succ n ih =>
    intro l hl ha
    match l with
    | [] => simp at hl
    | [a] => simp at hl; omega
    | [a, b] => simp at hl; omega
    | [a, b, c] => simp at hl; omega
    | a :: b :: c :: d :: t =>
      have hd : d = 255 := by
        have := ha [a, b, c, d] (by rw [chunks4]; exact List.mem_cons_self _ _)
        simpa using this
      subst hd
      rw [chunks4, List.map_cons, List.flatMap_cons,
        ih t (by simp at hl; omega) (fun p hp => ha p (by rw [chunks4]; exact List.mem_cons_of_mem _ hp))]
      simp [pix_of, Color32.from_rgba_unmultiplied, c32_bytes]

theorem rgba_or_blank_of_le {w h : Nat} {buf : List Nat} (hle : w * h * 4 ≤ buf.length) :
    rgba_or_blank w h buf = some ⟨w, h, buf⟩ := by
  unfold rgba_or_blank RgbaImage.from_raw
  rw [if_pos hle]

theorem rgba_or_blank_of_lt {w h : Nat} {buf : List Nat} (hlt : buf.length < w * h * 4) :
    rgba_or_blank w h buf = RgbaImage.new w h := by
  unfold rgba_or_blank RgbaImage.from_raw
  rw [if_neg (by omega)]

theorem take_flatMap_c32 (img : ColorImage) (hv : img.Valid) :
    (img.pixels.flatMap c32_bytes).take (img.width * img.height * 4) =
      img.pixels.flatMap c32_bytes :=
  List.take_of_length_le (le_of_eq (by rw [length_flatMap_c32, hv]; ring))

theorem dynamic_image_from_valid (img : ColorImage) (hv : img.Valid)
    (hne : img.pixels ≠ []) (hw : img.width < U32MOD) (hh : img.height < U32MOD) :
    dynamic_image_from img = some ⟨img.width, img.height, img.pixels.flatMap c32_bytes⟩ := by
  unfold dynamic_image_from
  rw [if_neg hne, Nat.mod_eq_of_lt hw, Nat.mod_eq_of_lt hh, take_flatMap_c32 img hv]
  exact rgba_or_blank_of_le (le_of_eq (by rw [length_flatMap_c32, hv]; ring))

theorem replicate_chunks_transparent (n : Nat) :
    (chunks4 (List.replicate (4 * n) 0)).map pix_of = List.replicate n (Color32.mk 0 0 0 0) := by
  induction n with
  | zero => rfl
  | succ m ih =>
    have h4 : 4 * (m + 1) = 4 * m + 1 + 1 + 1 + 1 := by ring
    rw [h4]
    simp only [List.replicate_succ]
    rw [chunks4, List.map_cons, ih]
    simp [pix_of, Color32.from_rgba_unmultiplied]

/-- C1: the round trip `to_color_image (to_raw_buffer x) = x` fails on the
code as claimed for every valid `ColorImage`: `from_rgba_unmultiplied`
premultiplies, so a pixel with alpha `0` and non-zero color bytes does not
survive the round trip.  The concrete 1×1 image with pixel bytes
`(255,255,255,0)` is valid (`1 = 1*1`) and maps to `(0,0,0,0)`. -/
theorem c1_counterexample :
    round_trip ⟨1, 1, [⟨255, 255, 255, 0⟩]⟩ ≠ some ⟨1, 1, [⟨255, 255, 255, 0⟩]⟩ := by
  decide

/-- C1 (amended): the round trip holds for every valid `ColorImage` that is
non-empty, has dimensions below `2^32`, and whose pixels all have alpha
`255` (so that egui's premultiplying `from_rgba_unmultiplied` is the
identity on the stored bytes). -/
theorem c1_round_trip (img : ColorImage) (hv : img.Valid) (hne : img.pixels ≠ [])
    (hw : img.width < U32MOD) (hh : img.height < U32MOD)
    (ha : ∀ p ∈ img.pixels, p.a = 255) :
    round_trip img = some img := by
  unfold round_trip
  rw [dynamic_image_from_valid img hv hne hw hh, Option.some_bind]
  unfold color_image_from_dynamic_image ColorImage.from_rgba_unmultiplied
  rw [if_pos (by rw [length_flatMap_c32, hv]; ring)]
  rw [chunks4_map_pix_flatMap img.pixels ha]

/-- C1 witness: the amended round trip at the concrete valid 1×1 image with
pixel `(5,6,7,255)`. -/
theorem c1_witness :
    round_trip ⟨1, 1, [⟨5, 6, 7, 255⟩]⟩ = some ⟨1, 1, [⟨5, 6, 7, 255⟩]⟩ :=
  c1_round_trip ⟨1, 1, [⟨5, 6, 7, 255⟩]⟩ (by decide) (by decide) (by decide) (by decide)
    (by decide)

/-- C2: the claim that the bridge leaves every pixel's channel bytes
unchanged for every alpha value fails: in the raw-to-`ColorImage` direction
the buffer `(255,255,255,0)` becomes the pixel `(0,0,0,0)` (egui's
`from_rgba_unmultiplied` premultiplies), so the output bytes differ from the
input bytes. -/
theorem c2_counterexample :
    (raw_to_color_image ⟨1, 1, [255, 255, 255, 0]⟩).map
      (fun img => img.pixels.flatMap c32_bytes) ≠ some [255, 255, 255, 0] := by
  decide

/-- C2 (amended): byte values pass through unchanged in the
`ColorImage`-to-raw direction always (the raw buffer is exactly the pixels'
channel bytes in order, no reordering, no clamping, no premultiplication),
and in the raw-to-`ColorImage` direction for every buffer whose pixels all
have alpha byte `255`; for alpha below `255` the color bytes are
premultiplied instead. -/
theorem c2_byte_passthrough :
    (∀ img : ColorImage, img.Valid → img.pixels ≠ [] → img.width < U32MOD →
      img.height < U32MOD →
      dynamic_image_from img = some ⟨img.width, img.height, img.pixels.flatMap c32_bytes⟩) ∧
    (∀ raw : RawImageBuffer, raw.bytes.length = raw.width * raw.height * 4 →
      (∀ p ∈ chunks4 raw.bytes, p.getD 3 0 = 255) →
      ∃ out, raw_to_color_image raw = some out ∧ out.width = raw.width ∧
        out.height = raw.height ∧ out.pixels.flatMap c32_bytes = raw.bytes) := by
  constructor
  · exact fun img hv hne hw hh => dynamic_image_from_valid img hv hne hw hh
  · intro raw hl ha
    refine ⟨⟨raw.width, raw.height, (chunks4 raw.bytes).map pix_of⟩, ?_, rfl, rfl, ?_⟩
    · unfold raw_to_color_image
      rw [rgba_or_blank_of_le (le_of_eq hl.symm), Option.some_bind]
      unfold color_image_from_dynamic_image ColorImage.from_rgba_unmultiplied
      dsimp only
      rw [if_pos hl.symm]
    · exact map_pix_flatMap_self (raw.width * raw.height) raw.bytes (by omega) ha

/-- C2 witness: both pass-through directions at concrete inputs — the valid
1×1 image with pixel `(1,2,3,255)` and the exact-length buffer
`[9,8,7,255]`. -/
theorem c2_witness :
    dynamic_image_from ⟨1, 1, [⟨1, 2, 3, 255⟩]⟩ = some ⟨1, 1, [1, 2, 3, 255]⟩ ∧
    ∃ out, raw_to_color_image ⟨1, 1, [9, 8, 7, 255]⟩ = some out ∧ out.width = 1 ∧
      out.height = 1 ∧ out.pixels.flatMap c32_bytes = [9, 8, 7, 255] :=
  ⟨c2_byte_passthrough.1 ⟨1, 1, [⟨1, 2, 3, 255⟩]⟩ (by decide) (by decide) (by decide) (by decide),
   c2_byte_passthrough.2 ⟨1, 1, [9, 8, 7, 255]⟩ (by decide) (by decide)⟩

/-- C4: the claim that a mismatched raw buffer fails with a ShapeMismatch
error is false on the code: the `from_raw` failure branch in
`dynamic_image_from` explicitly substitutes a blank image
(`RgbaImage::new`).  The 1×1 buffer of 3 bytes converts to a blank (all
zero) 1×1 image, not an error. -/
theorem c4_counterexample :
    raw_to_color_image ⟨1, 1, [1, 2, 3]⟩ = some ⟨1, 1, [⟨0, 0, 0, 0⟩]⟩ := by
  decide

/-- C4 (amended): the raw-to-`ColorImage` conversion never reports a shape
error.  A buffer with fewer than `width*height*4` bytes is silently replaced
by a blank transparent image of the declared size when the blank buffer's
length fits in `usize`; when `4*width*height` overflows `usize` the
substitute `RgbaImage::new` allocation itself panics (modelled as `none`).
A buffer with more than `width*height*4` bytes panics on the length
assertion inside egui's `from_rgba_unmultiplied` (modelled as `none`). -/
theorem c4_shape_mismatch :
    (∀ raw : RawImageBuffer, raw.bytes.length < raw.width * raw.height * 4 →
      image_buffer_fits raw.width raw.height →
      raw_to_color_image raw =
        some ⟨raw.width, raw.height, List.replicate (raw.width * raw.height) ⟨0, 0, 0, 0⟩⟩) ∧
    (∀ raw : RawImageBuffer, raw.bytes.length < raw.width * raw.height * 4 →
      ¬image_buffer_fits raw.width raw.height →
      raw_to_color_image raw = none) ∧
    (∀ raw : RawImageBuffer, raw.width * raw.height * 4 < raw.bytes.length →
      raw_to_color_image raw = none) := by
  refine ⟨?_, ?_, ?_⟩
  · intro raw hlt hfit
    unfold raw_to_color_image
    rw [rgba_or_blank_of_lt hlt]
    unfold RgbaImage.new
    rw [if_pos hfit, Option.some_bind]
    unfold color_image_from_dynamic_image ColorImage.from_rgba_unmultiplied
    rw [if_pos (by rw [List.length_replicate])]
    have h4 : raw.width * raw.height * 4 = 4 * (raw.width * raw.height) := by ring
    rw [h4, replicate_chunks_transparent]
  · intro raw hlt hfit
    unfold raw_to_color_image
    rw [rgba_or_blank_of_lt hlt]
    unfold RgbaImage.new
    rw [if_neg hfit]
    rfl
  · intro raw hgt
    unfold raw_to_color_image
    rw [rgba_or_blank_of_le (by omega), Option.some_bind]
    unfold color_image_from_dynamic_image ColorImage.from_rgba_unmultiplied
    rw [if_neg (show ¬raw.width * raw.height * 4 = raw.bytes.length by omega)]

/-- C4 witness: the undersized buffer `[9]` declared 2×1 yields the blank
2×1 image; the undersized empty buffer declared (2^32−1)×(2^32−1) panics in
the substitute allocation (its length overflows `usize`); and the oversized
1×1 buffer of 5 bytes panics on the length assertion. -/
theorem c4_witness :
    raw_to_color_image ⟨2, 1, [9]⟩ = some ⟨2, 1, [⟨0, 0, 0, 0⟩, ⟨0, 0, 0, 0⟩]⟩ ∧
    raw_to_color_image ⟨4294967295, 4294967295, []⟩ = none ∧
    raw_to_color_image ⟨1, 1, [1, 2, 3, 4, 5]⟩ = none := by
  refine ⟨?_, ?_, ?_⟩
  · have h := c4_shape_mismatch.1 ⟨2, 1, [9]⟩ (by decide) (by decide)
    simpa using h
  · exact c4_shape_mismatch.2.1 ⟨4294967295, 4294967295, []⟩ (by decide) (by decide)
  · exact c4_shape_mismatch.2.2 ⟨1, 1, [1, 2, 3, 4, 5]⟩ (by decide)

/-- C5: the claim that a zero-area source with a non-zero target fails with
a DegenerateSource error returned to the caller is false on the code: no
error value is ever produced (the return type is a bare `ColorImage`), and
the conversion panics at `&src.pixels[0]` (index out of bounds on the empty
pixel vector, modelled as `none`).  Shown at the concrete valid 0×0 source
and 2×2 target. -/
theorem c5_counterexample :
    resized_copy_from blur0 (2, 2) ⟨0, 0, []⟩ FilterType.Nearest = none := by
  decide

/-- C5 (amended): for every valid zero-area source and non-zero target the
fill-resize panics — the out-of-bounds index into the empty pixel vector —
rather than returning any value or error to the caller. -/
theorem c5_degenerate_source (blur : BlurFn) (wh : Nat × Nat) (src : ColorImage)
    (f : FilterType) (hv : src.Valid) (hz : src.width * src.height = 0)
    (_hw : 0 < wh.1) (_hh : 0 < wh.2) :
    resized_copy_from blur wh src f = none := by
  have hnil : src.pixels = [] := List.eq_nil_of_length_eq_zero (by rw [hv, hz])
  unfold resized_copy_from dynamic_image_from
  rw [if_pos hnil]
  rfl

/-- C5 witness: the amended statement at the concrete valid 0×3 source and
2×2 target. -/
theorem c5_witness :
    resized_copy_from blur0 (2, 2) ⟨0, 3, []⟩ FilterType.Lanczos3 = none :=
  c5_degenerate_source blur0 (2, 2) ⟨0, 3, []⟩ FilterType.Lanczos3 (by decide) (by decide)
    (by decide) (by decide)

/-- C6: on every byte sequence the decoder rejects, `resource_img` returns
the fixed placeholder `ColorImage::example()` and `resource_icon` returns
the explicit absent value `None`; neither propagates an error.  The decoder
and filesystem are explicit parameters, so the statement quantifies over
every failing byte sequence. -/
theorem c6_fail_soft (decode : List Nat → Option DynamicImage)
    (fs : RStr → Option (List Nat)) (basepath f : RStr) (p : Bool) (bs : List Nat)
    (hread : read_bytes fs basepath f p = some bs) (hdec : decode bs = none) :
    resource_img decode fs basepath f p = some ColorImage.example ∧
      resource_icon decode fs basepath f p = none := by
  constructor
  · simp only [resource_img, hread, hdec]
  · simp only [resource_icon, hread, hdec]

/-- C6 witness: the fail-soft asymmetry at a concrete always-failing decoder
and a one-file filesystem. -/
theorem c6_witness :
    resource_img (fun _ => none) (fun _ => some [9]) ['b'] ['a'] true =
      some ColorImage.example ∧
    resource_icon (fun _ => none) (fun _ => some [9]) ['b'] ['a'] true = none :=
  c6_fail_soft (fun _ => none) (fun _ => some [9]) ['b'] ['a'] true [9] rfl rfl

theorem resize_nearest_blur_irrel (blur : BlurFn) (img : DynamicImage) (nw nh : Nat) :
    resize blur img nw nh FilterType.Nearest = resize blur0 img nw nh FilterType.Nearest := by
  unfold resize
  split <;> rfl

/-- C7: fill-resizing the 4×4 quadrant test image to `(2,2)` with the
`Nearest` filter yields exactly the 2×2 image `[red, green, blue, yellow]`
(one representative pixel per quadrant, row-major), whatever the convolution
kernels of the other filters do. -/
theorem c7_nearest_downsample : ∀ blur : BlurFn,
    resized_copy_from blur (2, 2) quad4 FilterType.Nearest =
      some ⟨2, 2, [⟨255, 0, 0, 255⟩, ⟨0, 255, 0, 255⟩, ⟨0, 0, 255, 255⟩, ⟨255, 255, 0, 255⟩]⟩ := by
  intro blur
  simp only [resized_copy_from, resize_to_fill, resize_nearest_blur_irrel blur]
  decide

/-- C9: `reg_fonts` resolves each registration's filename under the
configured base path exactly when it contains no `'/'`, and passes it to the
filesystem as the caller-supplied path when it does contain `'/'` — the
refinement of `reg_fonts` by the per-entry path policy stated by the claim
(`reg_fonts_spec`).  The registration tuples carry no policy argument, so no
caller can select the policy per entry. -/
theorem c9_reg_fonts_policy : ∀ (fs : RStr → Option (List Nat)) (basepath : RStr)
    (ffs : List (RStr × RStr × FontFamily)),
    reg_fonts fs basepath ffs = reg_fonts_spec fs basepath ffs := by
  intro fs basepath ffs
  unfold reg_fonts reg_fonts_spec
  congr 1
  funext fonts e
  unfold resource_font read_bytes resolved_path_policy
  cases hc : e.2.1.contains slashChar <;> simp [hc]

/-- C10: `resource_font` leaves the font table untouched when the file read
fails; on success it installs exactly one `font_data` entry under the given
name, pushes that name at position `0` of the given family's list, and
leaves every other name's entry and every other family unchanged. -/
theorem c10_resource_font_effect (fs : RStr → Option (List Nat)) (basepath : RStr)
    (fonts : FontDefinitions) (n f : RStr) (t : FontFamily) (p : Bool) :
    (read_bytes fs basepath f p = none → resource_font fs basepath fonts n f t p = fonts) ∧
    (∀ b, read_bytes fs basepath f p = some b →
      (resource_font fs basepath fonts n f t p).font_data n = some (FontData.from_owned b) ∧
      (∀ m, m ≠ n →
        (resource_font fs basepath fonts n f t p).font_data m = fonts.font_data m) ∧
      (resource_font fs basepath fonts n f t p).families t =
        some (n :: (fonts.families t).getD []) ∧
      (∀ s, s ≠ t →
        (resource_font fs basepath fonts n f t p).families s = fonts.families s)) := by
  constructor
  · intro h
    unfold resource_font
    rw [h]
  · intro b h
    unfold resource_font
    rw [h]
    unfold font_insert
    exact ⟨by simp, fun m hm => by simp [hm], by simp, fun s hs => by simp [hs]⟩

/-- C10 witness: both the failing-read case (table returned unchanged) and
the successful case (entry under the name, name at the front of the family
list, other names and families untouched) at concrete inputs. -/
theorem c10_witness :
    resource_font (fun _ => none) ['b'] FontDefinitions.default ['n'] ['f']
      FontFamily.Proportional true = FontDefinitions.default ∧
    (resource_font (fun _ => some [7]) ['b'] FontDefinitions.default ['n'] ['f']
      FontFamily.Proportional true).font_data ['n'] = some (FontData.from_owned [7]) ∧
    (resource_font (fun _ => some [7]) ['b'] FontDefinitions.default ['n'] ['f']
      FontFamily.Proportional true).families FontFamily.Proportional = some [['n']] ∧
    (resource_font (fun _ => some [7]) ['b'] FontDefinitions.default ['n'] ['f']
      FontFamily.Proportional true).families FontFamily.Monospace = none :=
  ⟨(c10_resource_font_effect (fun _ => none) ['b'] FontDefinitions.default ['n'] ['f']
      FontFamily.Proportional true).1 rfl,
   ((c10_resource_font_effect (fun _ => some [7]) ['b'] FontDefinitions.default ['n'] ['f']
      FontFamily.Proportional true).2 [7] rfl).1,
   ((c10_resource_font_effect (fun _ => some [7]) ['b'] FontDefinitions.default ['n'] ['f']
      FontFamily.Proportional true).2 [7] rfl).2.2.1,
   ((c10_resource_font_effect (fun _ => some [7]) ['b'] FontDefinitions.default ['n'] ['f']
      FontFamily.Proportional true).2 [7] rfl).2.2.2 FontFamily.Monospace (by decide)⟩

/-! Helper lemmas for the fill-resize shape argument (claims C3 and C8). -/

theorem resize_dimensions_fill (sw sh w h : Nat) :
    resize_dimensions sw sh w h true =
      if U32MAX < fill_scaled_w sw sh w h then
        (U32MAX, max (min (frnd (Frac.scale sh ⟨U32MAX, sw⟩)) U32MAX) 1)
      else if U32MAX < fill_scaled_h sw sh w h then
        (max (min (frnd (Frac.scale sw ⟨U32MAX, sh⟩)) U32MAX) 1, U32MAX)
      else (fill_scaled_w sw sh w h, fill_scaled_h sw sh w h) :=
  rfl

theorem le_fill_scaled_w (sw sh w h : Nat) (hsw : 0 < sw) (hsh : 0 < sh) :
    w ≤ fill_scaled_w sw sh w h := by
  by_cases hc : w * sh ≤ h * sw
  · have hx : fill_scaled_w sw sh w h = max ((2 * (sw * h) + sh) / (2 * sh)) 1 := by
      simp [fill_scaled_w, Frac.max, Frac.le, Frac.scale, frnd, hc]
    rw [hx]
    refine le_trans ?_ (le_max_left _ _)
    rw [Nat.le_div_iff_mul_le (by omega)]
    have h1 : w * (2 * sh) = 2 * (w * sh) := by ring
    have h2 : 2 * (sw * h) = 2 * (h * sw) := by ring
    rw [h1, h2]
    omega
  · have hx : fill_scaled_w sw sh w h = max ((2 * (sw * w) + sw) / (2 * sw)) 1 := by
      simp [fill_scaled_w, Frac.max, Frac.le, Frac.scale, frnd, hc]
    rw [hx]
    have hval : (2 * (sw * w) + sw) / (2 * sw) = w := by
      have h2 : 2 * (sw * w) + sw = 2 * sw * w + sw := by ring
      rw [h2, Nat.mul_add_div (by omega), Nat.div_eq_of_lt (by omega)]
      omega
    rw [hval]
    exact le_max_left _ _

theorem le_fill_scaled_h (sw sh w h : Nat) (hsw : 0 < sw) (hsh : 0 < sh) :
    h ≤ fill_scaled_h sw sh w h := by
  by_cases hc : w * sh ≤ h * sw
  · have hx : fill_scaled_h sw sh w h = max ((2 * (sh * h) + sh) / (2 * sh)) 1 := by
      simp [fill_scaled_h, Frac.max, Frac.le, Frac.scale, frnd, hc]
    rw [hx]
    have hval : (2 * (sh * h) + sh) / (2 * sh) = h := by
      have h2 : 2 * (sh * h) + sh = 2 * sh * h + sh := by ring
      rw [h2, Nat.mul_add_div (by omega), Nat.div_eq_of_lt (by omega)]
      omega
    rw [hval]
    exact le_max_left _ _
  · have hx : fill_scaled_h sw sh w h = max ((2 * (sh * w) + sw) / (2 * sw)) 1 := by
      simp [fill_scaled_h, Frac.max, Frac.le, Frac.scale, frnd, hc]
    rw [hx]
    refine le_trans ?_ (le_max_left _ _)
    rw [Nat.le_div_iff_mul_le (by omega)]
    have h1 : h * (2 * sw) = 2 * (h * sw) := by ring
    have h2 : 2 * (sh * w) = 2 * (w * sh) := by ring
    rw [h1, h2]
    omega

theorem length_flatMap_const {α β : Type} (g : α → List β) (k : Nat) :
    ∀ l : List α, (∀ a ∈ l, (g a).length = k) → (l.flatMap g).length = l.length * k := by
  intro l hl
  induction l with
  | nil => simp
  | cons a t ih =>
    rw [List.flatMap_cons, List.length_append, hl a (List.mem_cons_self _ _),
      ih (fun x hx => hl x (List.mem_cons_of_mem _ hx)), List.length_cons]
    ring

theorem build_bytes_length (w h : Nat) (g : Nat → Nat → Color32) :
    (build_bytes w h g).length = h * (w * 4) := by
  unfold build_bytes
  have inner : ∀ y, ((List.range w).flatMap (fun x => c32_bytes (g x y))).length = w * 4 := by
    intro y
    rw [length_flatMap_const (fun x => c32_bytes (g x y)) 4 _ (fun a _ => rfl),
      List.length_range]
  rw [length_flatMap_const _ (w * 4) _ (fun y _ => inner y), List.length_range]

theorem resize_shape (blur : BlurFn) (img : DynamicImage) (nw nh : Nat) (f : FilterType)
    (hsw : 0 < img.width) (hsh : 0 < img.height)
    (hov1 : image_buffer_fits img.width nh) (hov2 : image_buffer_fits nw nh) :
    ∃ g, resize blur img nw nh f = some ⟨nw, nh, build_bytes nw nh g⟩ := by
  unfold resize
  rw [if_neg (by omega)]
  split
  case isTrue hcond =>
    rw [if_pos (show image_buffer_fits img.width img.height by
      rw [← hcond.1, ← hcond.2]; exact hov2)]
    exact ⟨_, by rw [hcond.1, hcond.2]⟩
  case isFalse hcond =>
    rw [if_pos ⟨hov1, hov2⟩]
    cases f <;> exact ⟨_, rfl⟩

theorem crop_shape (img : DynamicImage) (x y cw ch : Nat) :
    ∃ g, crop img x y cw ch =
      ⟨min cw (img.width - min x img.width), min ch (img.height - min y img.height),
        build_bytes (min cw (img.width - min x img.width))
          (min ch (img.height - min y img.height)) g⟩ :=
  ⟨_, rfl⟩

theorem crop_exact_shape (iw ih : Nat) (B : List Nat) (x y cw ch : Nat)
    (hx : x ≤ iw - cw) (hcw : cw ≤ iw) (hy : y ≤ ih - ch) (hch : ch ≤ ih) :
    ∃ g, crop ⟨iw, ih, B⟩ x y cw ch = ⟨cw, ch, build_bytes cw ch g⟩ := by
  obtain ⟨g, hg⟩ := crop_shape ⟨iw, ih, B⟩ x y cw ch
  rw [hg]
  dsimp only
  have e1 : min cw (iw - min x iw) = cw := by
    rw [Nat.min_eq_left (show x ≤ iw by omega)]
    exact Nat.min_eq_left (by omega)
  have e2 : min ch (ih - min y ih) = ch := by
    rw [Nat.min_eq_left (show y ≤ ih by omega)]
    exact Nat.min_eq_left (by omega)
  rw [e1, e2]
  exact ⟨g, rfl⟩

theorem resize_to_fill_shape (blur : BlurFn) (img : DynamicImage) (w h : Nat)
    (f : FilterType) (hsw : 0 < img.width) (hsh : 0 < img.height)
    (hcw : fill_scaled_w img.width img.height w h ≤ U32MAX)
    (hch : fill_scaled_h img.width img.height w h ≤ U32MAX)
    (hov1 : image_buffer_fits img.width (fill_scaled_h img.width img.height w h))
    (hov2 : image_buffer_fits (fill_scaled_w img.width img.height w h)
      (fill_scaled_h img.width img.height w h)) :
    ∃ g, resize_to_fill blur img w h f = some ⟨w, h, build_bytes w h g⟩ := by
  have hdim : resize_dimensions img.width img.height w h true =
      (fill_scaled_w img.width img.height w h, fill_scaled_h img.width img.height w h) := by
    rw [resize_dimensions_fill, if_neg (by omega), if_neg (by omega)]
  have hwle : w ≤ fill_scaled_w img.width img.height w h :=
    le_fill_scaled_w img.width img.height w h hsw hsh
  have hhle : h ≤ fill_scaled_h img.width img.height w h :=
    le_fill_scaled_h img.width img.height w h hsw hsh
  obtain ⟨g, hg⟩ := resize_shape blur img (fill_scaled_w img.width img.height w h)
    (fill_scaled_h img.width img.height w h) f hsw hsh hov1 hov2
  simp only [resize_to_fill, hdim, hg, Option.map_some', Option.some.injEq]
  split
  · exact crop_exact_shape _ _ _ 0 _ w h (by omega) (by omega) (by omega) (by omega)
  · exact crop_exact_shape _ _ _ _ 0 w h (by omega) (by omega) (by omega) (by omega)

theorem color_image_from_build (w h : Nat) (g : Nat → Nat → Color32) :
    ∃ ps : List Color32, color_image_from_dynamic_image ⟨w, h, build_bytes w h g⟩ =
      some ⟨w, h, ps⟩ ∧ ps.length = w * h := by
  refine ⟨(chunks4 (build_bytes w h g)).map pix_of, ?_, ?_⟩
  · unfold color_image_from_dynamic_image ColorImage.from_rgba_unmultiplied
    rw [if_pos (by rw [build_bytes_length]; ring)]
  · rw [List.length_map, chunks4_length (w * h) _ (by rw [build_bytes_length]; ring)]

/-- C3: the claim that the fill-resize result has size exactly `(w, h)` for
every target `w > 0`, `h > 0` is false on the code: the target components
are `usize` values cast with the truncating `as u32`.  At the concrete
target `(2^32, 2)` with a valid 1×1 source, the cast turns the requested
width into `0` and the result has size `[0, 2]`, not `[2^32, 2]`. -/
theorem c3_counterexample :
    (resized_copy_from blur0 (4294967296, 2) ⟨1, 1, [⟨255, 0, 0, 255⟩]⟩
      FilterType.Nearest).map ColorImage.size ≠ some [4294967296, 2] := by
  decide

/-- C3 (amended): for every valid source with positive dimensions below
`2^32`, every target `0 < w < 2^32`, `0 < h < 2^32`, and every filter, the
fill-resize result has size exactly `(w, h)` and exactly `w*h` pixels —
provided the fill-scaled intermediate dimensions stay within `u32::MAX`
(beyond that the image crate clamps the intermediate image and the final
crop can fall short of the target) and the two intermediate sampling
buffers — source width × scaled height, and scaled width × scaled height —
have subpixel counts that fit in `usize` (beyond that `ImageBuffer::new`'s
checked allocation panics instead of returning). -/
theorem c3_fill_shape (blur : BlurFn) (src : ColorImage) (w h : Nat) (f : FilterType)
    (hv : src.Valid) (hsw : 0 < src.width) (hsh : 0 < src.height)
    (hwlt : w < U32MOD) (hhlt : h < U32MOD)
    (hswlt : src.width < U32MOD) (hshlt : src.height < U32MOD)
    (hcw : fill_scaled_w src.width src.height w h ≤ U32MAX)
    (hch : fill_scaled_h src.width src.height w h ≤ U32MAX)
    (hov1 : image_buffer_fits src.width (fill_scaled_h src.width src.height w h))
    (hov2 : image_buffer_fits (fill_scaled_w src.width src.height w h)
      (fill_scaled_h src.width src.height w h)) :
    ∃ out, resized_copy_from blur (w, h) src f = some out ∧
      out.size = [w, h] ∧ out.pixels.length = w * h := by
  have hne : src.pixels ≠ [] := by
    intro hnil
    rw [ColorImage.Valid, hnil] at hv
    have := Nat.mul_pos hsw hsh
    simp at hv
    omega
  unfold resized_copy_from
  rw [dynamic_image_from_valid src hv hne hswlt hshlt, Option.some_bind]
  dsimp only
  rw [Nat.mod_eq_of_lt hwlt, Nat.mod_eq_of_lt hhlt]
  obtain ⟨g, hg⟩ := resize_to_fill_shape blur
    ⟨src.width, src.height, src.pixels.flatMap c32_bytes⟩ w h f hsw hsh hcw hch hov1 hov2
  rw [hg, Option.some_bind]
  obtain ⟨ps, hps, hlen⟩ := color_image_from_build w h g
  rw [hps]
  exact ⟨⟨w, h, ps⟩, rfl, rfl, hlen⟩

/-- C3 witness: the amended shape invariant at the concrete 4×4 quadrant
image resized to `(2, 2)` with the Gaussian filter (any kernel). -/
theorem c3_witness :
    ∃ out, resized_copy_from blur0 (2, 2) quad4 FilterType.Gaussian = some out ∧
      out.size = [2, 2] ∧ out.pixels.length = 2 * 2 :=
  c3_fill_shape blur0 quad4 2 2 FilterType.Gaussian (by decide) (by decide) (by decide)
    (by decide) (by decide) (by decide) (by decide) (by decide) (by decide) (by decide)
    (by decide)

/-- C8: the claim that the fill-resize to target `(0, 0)` succeeds for every
valid source is false on the code: the valid 0×0 source (zero pixels) makes
`dynamic_image_from` panic at `&src.pixels[0]` (index out of bounds,
modelled as `none`) before the target size is even consulted. -/
theorem c8_counterexample :
    resized_copy_from blur0 (0, 0) ⟨0, 0, []⟩ FilterType.Nearest = none := by
  decide

theorem fill_scaled_w_zero_target (sw sh : Nat) (hsh : 0 < sh) :
    fill_scaled_w sw sh 0 0 = 1 := by
  have hle : Frac.le ⟨0, sw⟩ ⟨0, sh⟩ = true := by simp [Frac.le]
  unfold fill_scaled_w Frac.max
  rw [if_pos hle]
  unfold Frac.scale frnd
  dsimp only
  rw [Nat.mul_zero, Nat.mul_zero, Nat.zero_add, Nat.div_eq_of_lt (by omega)]
  omega

theorem fill_scaled_h_zero_target (sw sh : Nat) (hsh : 0 < sh) :
    fill_scaled_h sw sh 0 0 = 1 := by
  have hle : Frac.le ⟨0, sw⟩ ⟨0, sh⟩ = true := by simp [Frac.le]
  unfold fill_scaled_h Frac.max
  rw [if_pos hle]
  unfold Frac.scale frnd
  dsimp only
  rw [Nat.mul_zero, Nat.mul_zero, Nat.zero_add, Nat.div_eq_of_lt (by omega)]
  omega

/-- C8 (amended): fill-resizing to target `(0, 0)` succeeds and returns the
empty `ColorImage` of size `(0, 0)` for every valid source with at least one
pixel and dimensions below `2^32` (the 0-pixel valid sources panic in
`dynamic_image_from` instead). -/
theorem c8_degenerate_target (blur : BlurFn) (src : ColorImage) (f : FilterType)
    (hv : src.Valid) (hsw : 0 < src.width) (hsh : 0 < src.height)
    (hswlt : src.width < U32MOD) (hshlt : src.height < U32MOD) :
    resized_copy_from blur (0, 0) src f = some ⟨0, 0, []⟩ := by
  have hne : src.pixels ≠ [] := by
    intro hnil
    rw [ColorImage.Valid, hnil] at hv
    have := Nat.mul_pos hsw hsh
    simp at hv
    omega
  unfold resized_copy_from
  rw [dynamic_image_from_valid src hv hne hswlt hshlt, Option.some_bind]
  dsimp only
  rw [Nat.zero_mod]
  have hdim : resize_dimensions src.width src.height 0 0 true = (1, 1) := by
    rw [resize_dimensions_fill, fill_scaled_w_zero_target src.width src.height hsh,
      fill_scaled_h_zero_target src.width src.height hsh, if_neg (by decide),
      if_neg (by decide)]
  obtain ⟨g, hg⟩ := resize_shape blur
    ⟨src.width, src.height, src.pixels.flatMap c32_bytes⟩ 1 1 f hsw hsh
    (show src.width * 1 * 4 ≤ USIZEMAX by unfold USIZEMAX U32MOD at *; omega)
    (by decide)
  simp only [resize_to_fill, hdim, hg, Option.map_some']
  rfl

/-- C8 witness: the degenerate target at the concrete 4×4 quadrant image
with the Triangle filter. -/
theorem c8_witness :
    resized_copy_from blur0 (0, 0) quad4 FilterType.Triangle = some ⟨0, 0, []⟩ :=
  c8_degenerate_target blur0 quad4 FilterType.Triangle (by decide) (by decide) (by decide)
    (by decide) (by decide)

end EguiResources
